import Mathlib

/-!
Verification of the json2xml-go conversion module (`dicttoxml.go` and the
`Json2xml` front-end).  The Go code is shallowly embedded: the dynamically
typed JSON-like values (`any` holding `nil`, `bool`, numbers, `string`,
`time.Time`, `map[string]any`, `[]any`) become the inductive `Value` below,
Go maps become association lists (Go maps have unique keys; theorems that
need uniqueness assume `Nodup` on the key list), and the in-place mutation
of maps performed by `Dict2XMLStr` is made explicit by returning the
post-call state of the mutated map.
-/

namespace Json2XML

/-- The JSON-like value domain walked by the converter.
* `vInt` models all Go integer kinds (their `%v` rendering is the decimal
  text, and `GetXMLType` reports `int`).
* `vFloat` carries the `%v` text rendering of the float (the converter
  only ever uses the rendered text of a float; float arithmetic never
  occurs), and `GetXMLType` reports `float`.
* `vTime` models a `time.Time` by its RFC 3339 rendering
  (`t.Format(time.RFC3339)`); the converter formats a time to that string
  before treating it as a string.
* `vDict` is a `map[string]any` as an association list in insertion order;
  Go maps have unique keys, so theorems that depend on lookups assume the
  key list is `Nodup`.
-/
inductive Value where
  | vNull : Value
  | vBool (b : Bool) : Value
  | vInt (n : Int) : Value
  | vFloat (text : String) : Value
  | vStr (s : String) : Value
  | vTime (rfc3339 : String) : Value
  | vDict (entries : List (String × Value)) : Value
  | vList (items : List Value) : Value

open Value

mutual

/-- Size of a `Value`, the termination measure for the converter. -/
def valueSize : Value → Nat
  | .vDict l => 1 + entriesSize l
  | .vList l => 1 + itemsSize l
  | _ => 1

/-- Total size of the entries of a dict value. -/
def entriesSize : List (String × Value) → Nat
  | [] => 0
  | e :: rest => 1 + valueSize e.2 + entriesSize rest

/-- Total size of the items of a list value. -/
def itemsSize : List Value → Nat
  | [] => 0
  | v :: rest => 1 + valueSize v + itemsSize rest

end

/-- Byte-order comparison of two character lists.  `sort.Strings` in Go
compares strings by UTF-8 bytes; byte order of UTF-8 encodings coincides
with codepoint order, so comparing codepoints is the same relation. -/
def charListLt : List Char → List Char → Bool
  | [], [] => false
  | [], _ :: _ => true
  | _ :: _, [] => false
  | a :: as, b :: bs =>
    if a.toNat < b.toNat then true
    else if b.toNat < a.toNat then false
    else charListLt as bs

/-- Go's string `<` (byte order, see `charListLt`). -/
def strLt (a b : String) : Bool := charListLt a.data b.data

/-- Insert an entry into a list sorted by key (helper of `sortEntries`). -/
def insertEntry (e : String × Value) : List (String × Value) → List (String × Value)
  | [] => [e]
  | f :: rest => if strLt e.1 f.1 then e :: f :: rest else f :: insertEntry e rest

/-- Sorting a Go map's entries by key.  The Go code collects the keys,
sorts them with `sort.Strings` and looks each one up; on an association
list with unique keys that is the same as sorting the entries by key. -/
def sortEntries : List (String × Value) → List (String × Value)
  | [] => []
  | e :: rest => insertEntry e (sortEntries rest)

/-- `strings.ReplaceAll`: replace every non-overlapping occurrence of
`pat` in `s` by `rep`, scanning left to right.  (Go treats an empty
pattern specially, inserting `rep` between all characters; no caller in
this module passes an empty pattern, and for an empty pattern this
definition returns `s` unchanged.) -/
def goReplaceAll (s pat rep : List Char) : List Char :=
  match s with
  | [] => []
  | c :: rest =>
    if h : pat ≠ [] ∧ pat.isPrefixOf (c :: rest) then
      rep ++ goReplaceAll ((c :: rest).drop pat.length) pat rep
    else
      c :: goReplaceAll rest pat rep
termination_by s.length
decreasing_by
  · simp only [List.length_drop, List.length_cons]
    have hp : 0 < pat.length := List.length_pos.mpr h.1
    omega
  · simp

/-- `strings.ReplaceAll` on `String`s. -/
def goReplaceAllS (s pat rep : String) : String :=
  ⟨goReplaceAll s.data pat.data rep.data⟩

/-- `strings.Replace(s, pat, rep, 1)`: replace only the leftmost
occurrence. -/
def goReplaceFirst (s pat rep : List Char) : List Char :=
  match s with
  | [] => []
  | c :: rest =>
    if pat ≠ [] ∧ pat.isPrefixOf (c :: rest) then
      rep ++ (c :: rest).drop pat.length
    else
      c :: goReplaceFirst rest pat rep

/-- `strings.Replace(s, pat, rep, 1)` on `String`s. -/
def goReplaceFirstS (s pat rep : String) : String :=
  ⟨goReplaceFirst s.data pat.data rep.data⟩

/-- `strings.HasPrefix` on `String`s. -/
def goHasPrefix (s pat : String) : Bool := pat.data.isPrefixOf s.data

/-- `strings.HasSuffix` on `String`s. -/
def goHasSuffix (s pat : String) : Bool := pat.data.isSuffixOf s.data

theorem insertEntry_perm (e : String × Value) (l : List (String × Value)) :
    (insertEntry e l).Perm (e :: l) := by
  induction l with
  | nil => simp [insertEntry]
  | cons f rest ih =>
    simp only [insertEntry]
    by_cases hlt : strLt e.1 f.1
    · simp [hlt]
    · simp only [hlt, if_false]
      exact (List.Perm.cons f ih).trans (List.Perm.swap e f rest)

theorem sortEntries_perm (l : List (String × Value)) : (sortEntries l).Perm l := by
  induction l with
  | nil => simp [sortEntries]
  | cons e rest ih =>
    exact (insertEntry_perm e (sortEntries rest)).trans (List.Perm.cons e ih)

theorem entriesSize_of_perm {l l' : List (String × Value)} (h : l.Perm l') :
    entriesSize l = entriesSize l' := by
  induction h with
  | nil => rfl
  | cons x _ ih => simp [entriesSize, ih]
  | swap x y l => simp [entriesSize]; omega
  | trans _ _ ih1 ih2 => omega

theorem entriesSize_sortEntries (l : List (String × Value)) :
    entriesSize (sortEntries l) = entriesSize l :=
  entriesSize_of_perm (sortEntries_perm l)

theorem entriesSize_filter_le (p : String × Value → Bool) (l : List (String × Value)) :
    entriesSize (l.filter p) ≤ entriesSize l := by
  induction l with
  | nil => simp [entriesSize]
  | cons e rest ih =>
    by_cases hp : p e
    · simp [List.filter, hp, entriesSize]; omega
    · simp only [List.filter, hp]
      simp only [entriesSize]
      omega

/-- `EscapeXML` (dicttoxml.go): sequentially replace `&`, `"`, `'`, `<`,
`>` by their entities, the ampersand first. -/
def EscapeXML (s : String) : String :=
  let s := goReplaceAllS s "&" "&amp;"
  let s := goReplaceAllS s "\"" "&quot;"
  let s := goReplaceAllS s "'" "&apos;"
  let s := goReplaceAllS s "<" "&lt;"
  goReplaceAllS s ">" "&gt;"

/-- `WrapCDATA` (dicttoxml.go): split any `]]>` terminator across adjacent
CDATA sections, then wrap in `<![CDATA[ ... ]]>`. -/
def WrapCDATA (s : String) : String :=
  let s := goReplaceAllS s "]]>" "]]]]><![CDATA[>"
  "<![CDATA[" ++ s ++ "]]>"

/-- Go map lookup `m[k]` on the association-list model (first match;
with `Nodup` keys the association list has at most one match, like a Go
map). -/
def lookupVal : List (String × Value) → String → Option Value
  | [], _ => none
  | (k, v) :: rest, key => if k = key then some v else lookupVal rest key

/-- Go's `delete(m, key)` on the association-list model. -/
def deleteKey (l : List (String × Value)) (key : String) : List (String × Value) :=
  l.filter (fun e => e.1 != key)

theorem lookupVal_size {l : List (String × Value)} {key : String} {v : Value}
    (h : lookupVal l key = some v) : valueSize v < entriesSize l := by
  induction l with
  | nil => simp [lookupVal] at h
  | cons e rest ih =>
    obtain ⟨k, w⟩ := e
    simp only [lookupVal] at h
    by_cases hk : k = key
    · simp only [hk, if_true] at h
      cases h
      simp [entriesSize]; omega
    · simp only [hk, if_false] at h
      have := ih h
      simp [entriesSize]; omega

theorem entriesSize_deleteKey_le (l : List (String × Value)) (key : String) :
    entriesSize (deleteKey l key) ≤ entriesSize l :=
  entriesSize_filter_le _ l

mutual

/-- Go's `fmt.Sprintf("%v", x)` on the value domain: booleans print
`true`/`false`, integers in decimal, `nil` prints `<nil>`, maps print
`map[k1:v1 k2:v2]` with sorted keys (Go's `fmt` sorts map keys), slices
print `[v1 v2]`.  `vFloat` and `vTime` carry their text rendering. -/
def goFormatV : Value → String
  | .vNull => "<nil>"
  | .vBool b => if b then "true" else "false"
  | .vInt n => toString n
  | .vFloat text => text
  | .vStr s => s
  | .vTime rfc3339 => rfc3339
  | .vDict l => "map[" ++ goFormatEntries (sortEntries l) ++ "]"
  | .vList l => "[" ++ goFormatItems l ++ "]"
termination_by v => 10 * valueSize v + 1
decreasing_by
  · simp [valueSize, entriesSize_sortEntries]; omega
  · simp [valueSize]; omega

/-- `%v` rendering of map entries, space separated. -/
def goFormatEntries : List (String × Value) → String
  | [] => ""
  | [e] => e.1 ++ ":" ++ goFormatV e.2
  | e :: f :: rest => e.1 ++ ":" ++ goFormatV e.2 ++ " " ++ goFormatEntries (f :: rest)
termination_by l => 10 * entriesSize l
decreasing_by
  all_goals simp [entriesSize]
  all_goals omega

/-- `%v` rendering of slice items, space separated. -/
def goFormatItems : List Value → String
  | [] => ""
  | [v] => goFormatV v
  | v :: w :: rest => goFormatV v ++ " " ++ goFormatItems (w :: rest)
termination_by l => 10 * itemsSize l
decreasing_by
  all_goals simp [itemsSize]
  all_goals omega

end

/-- `GetXMLType` (dicttoxml.go): the default-dialect type vocabulary.
A `time.Time` falls into the reflective default case, which answers
`str` for it. -/
def GetXMLType (v : Value) : String :=
  match v with
  | .vNull => "null"
  | .vBool _ => "bool"
  | .vInt _ => "int"
  | .vFloat _ => "float"
  | .vStr _ => "str"
  | .vTime _ => "str"
  | .vDict _ => "dict"
  | .vList _ => "list"

/-- `IsPrimitiveType` (dicttoxml.go). -/
def IsPrimitiveType (v : Value) : Bool :=
  let t := GetXMLType v
  t = "str" || t = "int" || t = "float" || t = "bool" || t = "null"

/-- Name bytes accepted greedily by Go's `encoding/xml` tokenizer
(`isNameByte`): ASCII letters, digits, `_`, `:`, `-`, `.`.  (The Go
tokenizer also accepts non-ASCII bytes at this stage; see
`KeyIsValidXML` for how non-ASCII is modelled.) -/
def isNameByte (c : Char) : Bool :=
  ('A' ≤ c && c ≤ 'Z') || ('a' ≤ c && c ≤ 'z') || ('0' ≤ c && c ≤ '9') ||
    c = '_' || c = ':' || c = '-' || c = '.'

/-- First characters of an XML name per Go's `encoding/xml` `first`
range table, ASCII fragment: letters, `_`, `:`. -/
def isNameStartChar (c : Char) : Bool :=
  ('A' ≤ c && c ≤ 'Z') || ('a' ≤ c && c ≤ 'z') || c = '_' || c = ':'

/-- Non-first name characters per Go's `encoding/xml` `second` range
table, ASCII fragment: name-start characters plus digits, `-`, `.`. -/
def isNameRestChar (c : Char) : Bool :=
  isNameStartChar c || ('0' ≤ c && c ≤ '9') || c = '-' || c = '.'

/-- XML whitespace skipped by Go's `encoding/xml` tokenizer. -/
def isXMLSpaceChar (c : Char) : Bool :=
  c = ' ' || c = '\t' || c = '\r' || c = '\n'

/-- `KeyIsValidXML` (dicttoxml.go).  The Go function builds the document
`<?xml ... ?><key>foo</key>` and runs `encoding/xml`'s tokenizer over it,
answering true exactly when tokenization reaches EOF without error.  For
a key with no raw `<`, `>`, `"`, `'` (every call site escapes first) that
parse succeeds exactly when the key splits into a non-empty run of name
bytes that forms a legal XML name (first character a letter, `_` or `:`;
the rest letters, digits, `_`, `:`, `-`, `.`) followed by only XML
whitespace.  Modelled here for ASCII keys; non-ASCII characters (which Go
classifies by Unicode tables) are treated as invalid name characters. -/
def KeyIsValidXML (key : String) : Bool :=
  match key.data.takeWhile isNameByte, key.data.dropWhile isNameByte with
  | [], _ => false
  | c :: cs, rest => isNameStartChar c && cs.all isNameRestChar && rest.all isXMLSpaceChar

/-- `isNumeric` (dicttoxml.go): non-empty and all ASCII digits. -/
def isNumeric (s : String) : Bool :=
  match s.data with
  | [] => false
  | l => l.all (fun c => '0' ≤ c && c ≤ '9')

/-- Attribute sets are Go `map[string]any` values; modelled like dict
values as association lists. -/
abbrev Attrs := List (String × Value)

/-- Go map assignment `attrs[k] = v`: overwrite the binding if the key
exists, otherwise add it. -/
def setAttr : Attrs → String → Value → Attrs
  | [], k, v => [(k, v)]
  | (k', v') :: rest, k, v =>
    if k' = k then (k, v) :: rest else (k', v') :: setAttr rest k v

/-- `MakeAttrString` (dicttoxml.go): empty map gives empty text;
otherwise sort the keys, render each attribute as ` k="escaped(%v
value)"` and concatenate (one leading space, single spaces between). -/
def MakeAttrString (attrs : Attrs) : String :=
  if attrs.isEmpty then ""
  else
    " " ++ String.intercalate " "
      ((sortEntries attrs).map (fun e => e.1 ++ "=\"" ++ EscapeXML (goFormatV e.2) ++ "\""))

/-- `MakeValidXMLName` (dicttoxml.go): escape the key, then first rule
that succeeds wins — already valid; all-digits (prefix `n`); spaces to
underscores; tolerate namespace colons and a `@flat` marker; otherwise
fall back to the element name `key` with the escaped key stored in a
`name` attribute. -/
def MakeValidXMLName (key : String) (attrs : Attrs) : String × Attrs :=
  let key := EscapeXML key
  if KeyIsValidXML key then (key, attrs)
  else if isNumeric key then ("n" ++ key, attrs)
  else
    let keyWithUnderscores := goReplaceAllS key " " "_"
    if KeyIsValidXML keyWithUnderscores then (keyWithUnderscores, attrs)
    else
      let keyClean := goReplaceAllS (goReplaceAllS key ":" "") "@flat" ""
      if KeyIsValidXML keyClean then (key, attrs)
      else ("key", setAttr attrs "name" (vStr key))

/-- `MakeID` (dicttoxml.go).  The call to `rand.Intn` is modelled by the
oracle `rnd` (`rnd n` stands for the draw `rand.Intn(n)`); the Go
function otherwise formats `element_<draw + start>`. -/
def MakeID (rnd : Nat → Nat) (element : String) (start stop : Nat) : String :=
  let start := if start = 0 then 100000 else start
  let stop := if stop = 0 then 999999 else stop
  element ++ "_" ++ toString (rnd (stop - start + 1) + start)

/-- `GetUniqueID` (dicttoxml.go). -/
def GetUniqueID (rnd : Nat → Nat) (element : String) : String :=
  MakeID rnd element 100000 999999

/-- `Options` (dicttoxml.go).  `itemFunc` is total (Go's `nil` check in
`DictToXML` replaces a nil function with `DefaultItemFunc`; a Lean
function can't be nil).  `xmlNamespaces` is the namespace map as an
association list (a nil Go map and an empty map behave identically in
`DictToXML`).  `rnd` is the random oracle for the `ids` feature (models
the process-global `math/rand` source). -/
structure Options where
  root : Bool
  customRoot : String
  ids : Bool
  attrType : Bool
  itemWrap : Bool
  itemFunc : String → String
  cdata : Bool
  xmlNamespaces : List (String × Value)
  listHeaders : Bool
  xpathFormat : Bool
  rnd : Nat → Nat

/-- `DefaultItemFunc` (dicttoxml.go). -/
def DefaultItemFunc (_parent : String) : String := "item"

/-- `DefaultOptions` (dicttoxml.go); the modelled random oracle defaults
to the constant 0 (unused unless `ids` is set). -/
def DefaultOptions : Options :=
  { root := true
    customRoot := "root"
    ids := false
    attrType := true
    itemWrap := true
    itemFunc := DefaultItemFunc
    cdata := false
    xmlNamespaces := []
    listHeaders := false
    xpathFormat := false
    rnd := fun _ => 0 }

/-- `ConvertKV` (dicttoxml.go): sanitize the name, format a `time.Time`
to RFC 3339, optionally add the `type` attribute, then emit
`<key attrs>value</key>` with the value CDATA-wrapped or escaped. -/
def ConvertKV (key : String) (val : Value) (attrType : Bool) (attrs : Attrs)
    (cdata : Bool) : String :=
  let p := MakeValidXMLName key attrs
  let val := match val with
    | .vTime s => vStr s
    | v => v
  let attrs := if attrType then setAttr p.2 "type" (vStr (GetXMLType val)) else p.2
  let attrString := MakeAttrString attrs
  let valStr := goFormatV val
  let valStr := if cdata then WrapCDATA valStr else EscapeXML valStr
  "<" ++ p.1 ++ attrString ++ ">" ++ valStr ++ "</" ++ p.1 ++ ">"

/-- `ConvertBool` (dicttoxml.go): boolean content is the lowercase
`true`/`false` text. -/
def ConvertBool (key : String) (val : Bool) (attrType : Bool) (attrs : Attrs)
    (_cdata : Bool) : String :=
  let p := MakeValidXMLName key attrs
  let attrs := if attrType then setAttr p.2 "type" (vStr (GetXMLType (vBool val))) else p.2
  let attrString := MakeAttrString attrs
  let valStr := if val then "true" else "false"
  "<" ++ p.1 ++ attrString ++ ">" ++ valStr ++ "</" ++ p.1 ++ ">"

/-- `ConvertNone` (dicttoxml.go): a null becomes an empty element
`<key attrs></key>`. -/
def ConvertNone (key : String) (attrType : Bool) (attrs : Attrs)
    (_cdata : Bool) : String :=
  let p := MakeValidXMLName key attrs
  let attrs := if attrType then setAttr p.2 "type" (vStr (GetXMLType vNull)) else p.2
  let attrString := MakeAttrString attrs
  "<" ++ p.1 ++ attrString ++ ">" ++ "</" ++ p.1 ++ ">"

/-- Result of `extractSpecialAttrs`: the attribute set to use, the value
whose subtree is encoded, the `@flat` flag, and the post-call state of
the (in Go, mutated in place) item map. -/
structure ExtractResult where
  attrs : Attrs
  rawItem : Value
  flat : Bool
  itemAfter : List (String × Value)

/-- First step of `extractSpecialAttrs`: take `@attrs` as the attribute
set only when its value is a mapping, deleting the key in that case. -/
def extractAttrsStep (item : List (String × Value)) (defaultAttrs : Attrs) :
    Attrs × List (String × Value) :=
  match lookupVal item "@attrs" with
  | some (.vDict ca) => (ca, deleteKey item "@attrs")
  | _ => (defaultAttrs, item)

/-- Second step of `extractSpecialAttrs`: take `@val` as the raw value if
present, deleting the key. -/
def extractValStep (item : List (String × Value)) :
    Option Value × List (String × Value) :=
  match lookupVal item "@val" with
  | some v => (some v, deleteKey item "@val")
  | none => (none, item)

/-- Third step of `extractSpecialAttrs`: read the `@flat` flag (true only
for a boolean `true` value), deleting the key whenever present. -/
def extractFlatStep (item : List (String × Value)) :
    Bool × List (String × Value) :=
  match lookupVal item "@flat" with
  | some (.vBool true) => (true, deleteKey item "@flat")
  | some _ => (false, deleteKey item "@flat")
  | none => (false, item)

/-- `extractSpecialAttrs` (dicttoxml.go): extract `@attrs` (only when its
value is a mapping), then `@val`, then `@flat`, deleting each found key
from the item map.  Go mutates the caller's map; the deletions are
modelled by the returned `itemAfter` state.  When no `@val` is present
the encoded value is the stripped map itself. -/
def extractSpecialAttrs (item : List (String × Value)) (defaultAttrs : Attrs) :
    ExtractResult :=
  let step1 := extractAttrsStep item defaultAttrs
  let step2 := extractValStep step1.2
  let step3 := extractFlatStep step2.2
  { attrs := step1.1
    rawItem := match step2.1 with
      | some v => v
      | none => vDict step3.2
    flat := step3.1
    itemAfter := step3.2 }

theorem extractAttrsStep_size (item : List (String × Value)) (d : Attrs) :
    entriesSize (extractAttrsStep item d).2 ≤ entriesSize item := by
  unfold extractAttrsStep
  cases h : lookupVal item "@attrs" with
  | none => simp
  | some v =>
    cases v <;> simp [deleteKey, entriesSize_filter_le]

theorem extractValStep_size (item : List (String × Value)) :
    entriesSize (extractValStep item).2 ≤ entriesSize item := by
  unfold extractValStep
  cases h : lookupVal item "@val" with
  | none => simp
  | some v => simp [deleteKey, entriesSize_filter_le]

theorem extractValStep_some_size {item : List (String × Value)} {v : Value}
    (h : (extractValStep item).1 = some v) : valueSize v < entriesSize item := by
  unfold extractValStep at h
  cases hl : lookupVal item "@val" with
  | none => simp [hl] at h
  | some w =>
    simp only [hl] at h
    cases h
    exact lookupVal_size hl

theorem extractFlatStep_size (item : List (String × Value)) :
    entriesSize (extractFlatStep item).2 ≤ entriesSize item := by
  unfold extractFlatStep
  cases h : lookupVal item "@flat" with
  | none => simp
  | some v =>
    cases v <;> first
      | (rename_i b; cases b <;> simp [deleteKey, entriesSize_filter_le])
      | simp [deleteKey, entriesSize_filter_le]

theorem extractSpecialAttrs_rawItem_size (item : List (String × Value)) (d : Attrs) :
    valueSize (extractSpecialAttrs item d).rawItem ≤ 1 + entriesSize item := by
  unfold extractSpecialAttrs
  have h1 := extractAttrsStep_size item d
  have h2 := extractValStep_size (extractAttrsStep item d).2
  have h3 := extractFlatStep_size (extractValStep (extractAttrsStep item d).2).2
  cases hv : (extractValStep (extractAttrsStep item d).2).1 with
  | none =>
    simp only [hv, valueSize]
    omega
  | some v =>
    have := extractValStep_some_size hv
    simp only [hv]
    omega

/-- `strings.TrimSuffix(s, "@flat")` as used on item names. -/
def trimFlatSuffix (s : String) : String :=
  if goHasSuffix s "@flat" then ⟨s.data.take (s.data.length - 5)⟩ else s

mutual

/-- `Convert` (dicttoxml.go): route a value to the right converter by its
kind.  `nil` attribute maps are the empty attribute set; a `time.Time`
falls into the reflective default case and is formatted to RFC 3339
before being passed to `ConvertKV`. -/
def Convert (obj : Value) (opts : Options) (parent : String) : String :=
  let itemName := opts.itemFunc parent
  match obj with
  | .vNull => ConvertNone itemName opts.attrType [] opts.cdata
  | .vBool b => ConvertBool itemName b opts.attrType [] opts.cdata
  | .vInt n => ConvertKV itemName (vInt n) opts.attrType [] opts.cdata
  | .vFloat t => ConvertKV itemName (vFloat t) opts.attrType [] opts.cdata
  | .vStr s => ConvertKV itemName (vStr s) opts.attrType [] opts.cdata
  | .vTime s => ConvertKV itemName (vStr s) opts.attrType [] opts.cdata
  | .vDict l => ConvertDict l opts parent
  | .vList l => ConvertList l opts parent
termination_by 10 * valueSize obj
decreasing_by
  all_goals simp [valueSize]
  all_goals omega

/-- `ConvertDict` (dicttoxml.go): iterate the map's entries in sorted key
order and convert each one. -/
def ConvertDict (obj : List (String × Value)) (opts : Options) (parent : String) :
    String :=
  convertDictEntries (sortEntries obj) opts parent
termination_by 10 * entriesSize obj + 1
decreasing_by
  simp only [entriesSize_sortEntries]
  omega

/-- The loop body of `ConvertDict`: per key, build the optional `id`
attribute, sanitize the name, convert the value, and append. -/
def convertDictEntries (l : List (String × Value)) (opts : Options) (parent : String) :
    String :=
  match l with
  | [] => ""
  | (key, val) :: rest =>
    let attrs : Attrs :=
      if opts.ids then [("id", vStr (GetUniqueID opts.rnd parent))] else []
    let p := MakeValidXMLName key attrs
    convertDictEntry p.1 val p.2 opts parent ++ convertDictEntries rest opts parent
termination_by 10 * entriesSize l
decreasing_by
  all_goals simp [entriesSize]
  all_goals omega

/-- The per-value dispatch inside `ConvertDict`'s loop (the `switch` on
the value's type). -/
def convertDictEntry (key : String) (val : Value) (attrs : Attrs) (opts : Options)
    (parent : String) : String :=
  match val with
  | .vNull => ConvertNone key opts.attrType attrs opts.cdata
  | .vBool b => ConvertBool key b opts.attrType attrs opts.cdata
  | .vInt n => ConvertKV key (vInt n) opts.attrType attrs opts.cdata
  | .vFloat t => ConvertKV key (vFloat t) opts.attrType attrs opts.cdata
  | .vStr s => ConvertKV key (vStr s) opts.attrType attrs opts.cdata
  | .vTime s => ConvertKV key (vStr s) opts.attrType attrs opts.cdata
  | .vDict m => (Dict2XMLStr opts attrs m key false parent).1
  | .vList items => List2XMLStr opts attrs items key
termination_by 10 * valueSize val + 3
decreasing_by
  all_goals simp [valueSize]
  all_goals omega

/-- `Dict2XMLStr` (dicttoxml.go): optionally add `type="dict"`, extract
the meta keys `@attrs`/`@val`/`@flat` (deleting them from the caller's
map — the returned second component is the post-call state of that map),
encode the remaining content, and wrap it according to the list-context
flags. -/
def Dict2XMLStr (opts : Options) (attrs : Attrs) (item : List (String × Value))
    (itemName : String) (parentIsList : Bool) (parent : String) :
    String × List (String × Value) :=
  let attrs :=
    if opts.attrType then setAttr attrs "type" (vStr (GetXMLType (vDict item))) else attrs
  let r := extractSpecialAttrs item attrs
  let subtree :=
    if IsPrimitiveType r.rawItem then
      match r.rawItem with
      | .vStr s => EscapeXML s
      | w => EscapeXML (goFormatV w)
    else Convert r.rawItem opts itemName
  let out :=
    if parentIsList && opts.listHeaders then
      if !r.attrs.isEmpty && !opts.itemWrap then
        "<" ++ parent ++ MakeAttrString r.attrs ++ ">" ++ subtree ++ "</" ++ parent ++ ">"
      else
        "<" ++ parent ++ ">" ++ subtree ++ "</" ++ parent ++ ">"
    else if r.flat || (parentIsList && !opts.itemWrap) then subtree
    else
      "<" ++ itemName ++ MakeAttrString r.attrs ++ ">" ++ subtree ++ "</" ++ itemName ++ ">"
  (out, r.itemAfter)
termination_by 10 * (1 + entriesSize item) + 1
decreasing_by
  exact Nat.lt_of_le_of_lt
    (Nat.mul_le_mul_left 10 (extractSpecialAttrs_rawItem_size item _))
    (Nat.lt_succ_self _)

/-- `List2XMLStr` (dicttoxml.go): optionally add `type="list"`, strip a
trailing `@flat` marker from the item name (marking flat), convert the
items, and wrap unless flat, unwrapped-primitive, or list-headers mode
applies. -/
def List2XMLStr (opts : Options) (attrs : Attrs) (items : List Value)
    (itemName : String) : String :=
  let attrs :=
    if opts.attrType then setAttr attrs "type" (vStr (GetXMLType (vList items))) else attrs
  let flat := goHasSuffix itemName "@flat"
  let itemName := trimFlatSuffix itemName
  let subtree := ConvertList items opts itemName
  let firstPrimitive :=
    match items with
    | [] => false
    | v :: _ => IsPrimitiveType v
  if flat || (firstPrimitive && !opts.itemWrap) then subtree
  else if opts.listHeaders then subtree
  else "<" ++ itemName ++ MakeAttrString attrs ++ ">" ++ subtree ++ "</" ++ itemName ++ ">"
termination_by 10 * (1 + itemsSize items) + 1
decreasing_by
  omega

/-- `ConvertList` (dicttoxml.go): compute the per-item name from the
parent (stripping a trailing `@flat` marker) and convert each item. -/
def ConvertList (items : List Value) (opts : Options) (parent : String) : String :=
  let itemName := trimFlatSuffix (opts.itemFunc parent)
  convertListItems items itemName parent opts
termination_by 10 * itemsSize items + 2
decreasing_by
  omega

/-- The loop of `ConvertList` over the items. -/
def convertListItems (items : List Value) (itemName parent : String)
    (opts : Options) : String :=
  match items with
  | [] => ""
  | item :: rest =>
    convertListItem item itemName parent opts ++
      convertListItems rest itemName parent opts
termination_by 10 * itemsSize items + 1
decreasing_by
  all_goals simp [itemsSize]
  all_goals omega

/-- The per-item dispatch inside `ConvertList`'s loop: primitives use the
item name, or the parent's name instead when `itemWrap` is off (booleans,
times and nulls always use the item name). -/
def convertListItem (item : Value) (itemName parent : String) (opts : Options) :
    String :=
  let attrs : Attrs := []
  match item with
  | .vNull => ConvertNone itemName opts.attrType attrs opts.cdata
  | .vBool b => ConvertBool itemName b opts.attrType attrs opts.cdata
  | .vInt n =>
    if opts.itemWrap then ConvertKV itemName (vInt n) opts.attrType attrs opts.cdata
    else ConvertKV parent (vInt n) opts.attrType attrs opts.cdata
  | .vFloat t =>
    if opts.itemWrap then ConvertKV itemName (vFloat t) opts.attrType attrs opts.cdata
    else ConvertKV parent (vFloat t) opts.attrType attrs opts.cdata
  | .vStr s =>
    if opts.itemWrap then ConvertKV itemName (vStr s) opts.attrType attrs opts.cdata
    else ConvertKV parent (vStr s) opts.attrType attrs opts.cdata
  | .vTime s => ConvertKV itemName (vStr s) opts.attrType attrs opts.cdata
  | .vDict m => (Dict2XMLStr opts attrs m itemName true parent).1
  | .vList l => List2XMLStr opts attrs l itemName
termination_by 10 * valueSize item + 3
decreasing_by
  all_goals simp [valueSize]
  all_goals omega

end

/-- The XPath 3.1 json-to-xml namespace constant (dicttoxml.go). -/
def XPathFunctionsNS : String := "http://www.w3.org/2005/xpath-functions"

/-- `GetXPath31TagName` (dicttoxml.go): the XPath-dialect tag
vocabulary.  A `time.Time` (a struct kind) falls to the default case,
`string`.  (Go special-cases `[]byte` slices as `string`; byte slices
are not JSON-like values and are not part of the modelled domain.) -/
def GetXPath31TagName (v : Value) : String :=
  match v with
  | .vNull => "null"
  | .vBool _ => "boolean"
  | .vDict _ => "map"
  | .vInt _ => "number"
  | .vFloat _ => "number"
  | .vStr _ => "string"
  | .vTime _ => "string"
  | .vList _ => "array"

mutual

/-- `ConvertToXPath31` (dicttoxml.go): pure structural encoding — each
node becomes `<tag key="k"?>content</tag>` (self-closed for null), with
the tag chosen by `GetXPath31TagName`, the `key` attribute present only
when a parent key is known, map children in sorted key order, and array
members in original order with no key. -/
def ConvertToXPath31 (obj : Value) (parentKey : String) : String :=
  let keyAttr := if parentKey ≠ "" then " key=\"" ++ EscapeXML parentKey ++ "\"" else ""
  match obj with
  | .vNull => "<null" ++ keyAttr ++ "/>"
  | .vBool b =>
    "<boolean" ++ keyAttr ++ ">" ++ (if b then "true" else "false") ++ "</boolean>"
  | .vInt n => "<number" ++ keyAttr ++ ">" ++ goFormatV (vInt n) ++ "</number>"
  | .vFloat t => "<number" ++ keyAttr ++ ">" ++ t ++ "</number>"
  | .vStr s => "<string" ++ keyAttr ++ ">" ++ EscapeXML s ++ "</string>"
  | .vTime s => "<string" ++ keyAttr ++ ">" ++ EscapeXML s ++ "</string>"
  | .vDict l => "<map" ++ keyAttr ++ ">" ++ xpathChildren (sortEntries l) ++ "</map>"
  | .vList l => "<array" ++ keyAttr ++ ">" ++ xpathItems l ++ "</array>"
termination_by 10 * valueSize obj + 1
decreasing_by
  · simp [valueSize, entriesSize_sortEntries]; omega
  · simp [valueSize]; omega

/-- Map children of the XPath encoding: each entry passes its key. -/
def xpathChildren (l : List (String × Value)) : String :=
  match l with
  | [] => ""
  | (k, v) :: rest => ConvertToXPath31 v k ++ xpathChildren rest
termination_by 10 * entriesSize l
decreasing_by
  all_goals simp [entriesSize]
  all_goals omega

/-- Array members of the XPath encoding: no key is passed. -/
def xpathItems (l : List Value) : String :=
  match l with
  | [] => ""
  | v :: rest => ConvertToXPath31 v "" ++ xpathItems rest
termination_by 10 * itemsSize l
decreasing_by
  all_goals simp [itemsSize]
  all_goals omega

end

/-- The namespace-attribute string of `DictToXML` (dicttoxml.go).  Go
iterates the namespace map in unspecified map order; the model iterates
the association list in its order.  `xsi` values must be mappings and
contribute `xmlns:xsi`/`xsi:schemaLocation` attributes; the reserved
prefix `xmlns` produces a default-namespace attribute. -/
def buildNamespaceString (namespaces : List (String × Value)) : String :=
  String.join (namespaces.map (fun p =>
    match p.1, p.2 with
    | "xsi", .vDict xsiMap =>
      String.join (xsiMap.map (fun q =>
        if q.1 = "schemaInstance" then " xmlns:xsi=\"" ++ goFormatV q.2 ++ "\""
        else if q.1 = "schemaLocation" then " xsi:schemaLocation=\"" ++ goFormatV q.2 ++ "\""
        else ""))
    | "xsi", _ => ""
    | "xmlns", v => " xmlns=\"" ++ goFormatV v ++ "\""
    | prfx, v => " xmlns:" ++ prfx ++ "=\"" ++ goFormatV v ++ "\""))

/-- `DictToXML` (dicttoxml.go): in XPath mode, encode with
`ConvertToXPath31` and splice the xpath-functions namespace into the
outermost `<map`/`<array` tag (synthesizing a `<map>` wrapper for a bare
scalar); otherwise emit the prolog and either wrap the converted value in
the custom root (with any namespace attributes) or emit it bare.  (Go's
guard replacing a nil `ItemFunc` by `DefaultItemFunc` has no counterpart:
the modelled `itemFunc` is always a total function.) -/
def DictToXML (obj : Value) (opts : Options) : String :=
  if opts.xpathFormat then
    let xmlContent := ConvertToXPath31 obj ""
    let xmlContent :=
      if goHasPrefix xmlContent "<map" then
        goReplaceFirstS xmlContent "<map" ("<map xmlns=\"" ++ XPathFunctionsNS ++ "\"")
      else if goHasPrefix xmlContent "<array" then
        goReplaceFirstS xmlContent "<array" ("<array xmlns=\"" ++ XPathFunctionsNS ++ "\"")
      else
        "<map xmlns=\"" ++ XPathFunctionsNS ++ "\">" ++ xmlContent ++ "</map>"
    "<?xml version=\"1.0\" encoding=\"UTF-8\" ?>" ++ xmlContent
  else
    let namespaceStr := buildNamespaceString opts.xmlNamespaces
    if opts.root then
      "<?xml version=\"1.0\" encoding=\"UTF-8\" ?>" ++
        "<" ++ opts.customRoot ++ namespaceStr ++ ">" ++
        Convert obj opts opts.customRoot ++
        "</" ++ opts.customRoot ++ ">"
    else
      Convert obj opts ""

/-- The result of `Json2xml.ToXML` (json2xml.go), whose Go return type is
`any`: nil, a pretty-printed `string`, or raw `[]byte`. -/
inductive XMLResult where
  | nilResult : XMLResult
  | strResult (s : String) : XMLResult
  | bytesResult (s : String) : XMLResult

/-- The `Json2xml` converter struct (json2xml.go).  JSON `null` input
parses to a nil Go interface, modelled as `vNull` in `data`. -/
structure Json2xml where
  data : Value
  wrapper : String
  root : Bool
  pretty : Bool
  attrType : Bool
  itemWrap : Bool
  xpathFormat : Bool

/-- `New` (json2xml.go): the defaults of the front-end converter. -/
def New (data : Value) : Json2xml :=
  { data := data
    wrapper := "all"
    root := true
    pretty := true
    attrType := true
    itemWrap := true
    xpathFormat := false }

/-- `Json2xml.ToXML` (json2xml.go): nil data, an empty top-level mapping
or an empty top-level sequence short-circuit to a nil result with a nil
error; otherwise the data is converted with the struct's options and,
when `pretty` is set, run through the pretty-printer.  The
pretty-printer is an external collaborator (it re-serializes XML through
`encoding/xml`) and is passed in as the function `pp`; the theorems below
hold for every `pp`. -/
def Json2xml.toXML (pp : String → Except Unit String) (j : Json2xml) :
    Except Unit XMLResult :=
  match j.data with
  | .vNull => .ok .nilResult
  | .vDict [] => .ok .nilResult
  | .vList [] => .ok .nilResult
  | d =>
    let opts : Options :=
      { root := j.root
        customRoot := j.wrapper
        ids := false
        attrType := j.attrType
        itemWrap := j.itemWrap
        itemFunc := DefaultItemFunc
        cdata := false
        xmlNamespaces := []
        listHeaders := false
        xpathFormat := j.xpathFormat
        rnd := fun _ => 0 }
    let xmlData := DictToXML d opts
    if j.pretty then
      match pp xmlData with
      | .ok s => .ok (.strResult s)
      | .error e => .error e
    else
      .ok (.bytesResult xmlData)

/-- `ConvertToXML` (json2xml.go): the convenience entry point.  It
returns `(nil, nil)` only for nil data; any other value — including an
empty mapping or sequence — is converted with the given options (or
`DefaultOptions` when none are given).  The Go error result is always
nil, so the model returns only the optional byte string. -/
def ConvertToXML (data : Value) (opts : Option Options) : Option String :=
  match data with
  | .vNull => none
  | d =>
    let o := match opts with
      | none => DefaultOptions
      | some o => o
    some (DictToXML d o)

/-! ## Order facts about the key comparison -/

theorem char_eq_of_toNat_eq {a b : Char} (h : a.toNat = b.toNat) : a = b :=
  Char.eq_of_val_eq (UInt32.eq_of_val_eq (Fin.eq_of_val_eq h))

theorem charListLt_asymm : ∀ (a b : List Char),
    charListLt a b = true → charListLt b a = false
  | [], [] => by simp [charListLt]
  | [], _ :: _ => by simp [charListLt]
  | _ :: _, [] => by simp [charListLt]
  | x :: xs, y :: ys => by
    simp only [charListLt]
    by_cases h1 : x.toNat < y.toNat
    · intro _
      have h2 : ¬ y.toNat < x.toNat := by omega
      simp [h1, h2]
    · by_cases h2 : y.toNat < x.toNat
      · simp [h1, h2]
      · simp only [h1, h2, if_false]
        exact charListLt_asymm xs ys

theorem charListLt_total : ∀ (a b : List Char),
    charListLt a b = false → charListLt b a = false → a = b
  | [], [] => by simp
  | [], _ :: _ => by simp [charListLt]
  | _ :: _, [] => by simp [charListLt]
  | x :: xs, y :: ys => by
    simp only [charListLt]
    by_cases h1 : x.toNat < y.toNat
    · simp [h1]
    · by_cases h2 : y.toNat < x.toNat
      · have h3 : ¬ x.toNat < y.toNat := by omega
        simp [h2, h3]
      · simp only [h1, h2, if_false]
        intro ha hb
        have hxy : x = y := char_eq_of_toNat_eq (by omega)
        rw [hxy, charListLt_total xs ys ha hb]

theorem charListLt_trans : ∀ (a b c : List Char),
    charListLt a b = true → charListLt b c = true → charListLt a c = true
  | [], [], _ => by simp [charListLt]
  | [], _ :: _, [] => by simp [charListLt]
  | [], _ :: _, _ :: _ => by simp [charListLt]
  | _ :: _, [], _ => by simp [charListLt]
  | _ :: _, _ :: _, [] => by simp [charListLt]
  | x :: xs, y :: ys, z :: zs => by
    simp only [charListLt]
    by_cases h1 : x.toNat < y.toNat
    · by_cases h3 : y.toNat < z.toNat
      · have h5 : x.toNat < z.toNat := by omega
        simp [h1, h3, h5]
      · by_cases h4 : z.toNat < y.toNat
        · simp [h3, h4]
        · have h5 : x.toNat < z.toNat := by omega
          simp [h1, h3, h4, h5]
    · by_cases h2 : y.toNat < x.toNat
      · simp [h1, h2]
      · by_cases h3 : y.toNat < z.toNat
        · have h5 : x.toNat < z.toNat := by omega
          simp [h1, h2, h3, h5]
        · by_cases h4 : z.toNat < y.toNat
          · simp [h3, h4]
          · have h5 : ¬ x.toNat < z.toNat := by omega
            have h6 : ¬ z.toNat < x.toNat := by omega
            simp only [h1, h2, h3, h4, h5, h6, if_false]
            exact charListLt_trans xs ys zs

theorem strLt_total : ∀ {a b : String},
    strLt a b = false → strLt b a = false → a = b
  | ⟨da⟩, ⟨db⟩, h1, h2 => by
    have : da = db := charListLt_total da db h1 h2
    rw [this]

/-- The weak key order in which `sortEntries` arranges entries. -/
def entryLe (a b : String × Value) : Prop := strLt b.1 a.1 = false

/-- The strict key order: with `Nodup` keys `sortEntries` is strictly
increasing. -/
def entryLt (a b : String × Value) : Prop := strLt a.1 b.1 = true

theorem insertEntry_sorted (e : String × Value) (l : List (String × Value))
    (h : l.Pairwise entryLe) : (insertEntry e l).Pairwise entryLe := by
  induction l with
  | nil => simp [insertEntry, List.pairwise_cons]
  | cons f rest ih =>
    rw [List.pairwise_cons] at h
    simp only [insertEntry]
    by_cases hlt : strLt e.1 f.1 = true
    · rw [if_pos hlt, List.pairwise_cons]
      refine ⟨?_, List.pairwise_cons.mpr h⟩
      intro x hx
      rcases List.mem_cons.mp hx with hx | hx
      · subst hx
        exact charListLt_asymm _ _ hlt
      · have hfx := h.1 x hx
        unfold entryLe at hfx ⊢
        by_cases hxe : strLt x.1 e.1 = true
        · have := charListLt_trans _ _ _ hxe hlt
          unfold strLt at this hfx
          simp [this] at hfx
        · simpa using hxe
    · rw [if_neg hlt, List.pairwise_cons]
      refine ⟨?_, ih h.2⟩
      intro x hx
      have hx' := (insertEntry_perm e rest).mem_iff.mp hx
      rcases List.mem_cons.mp hx' with hx' | hx'
      · subst hx'
        unfold entryLe
        simpa using hlt
      · exact h.1 x hx'

theorem sortEntries_sorted (l : List (String × Value)) :
    (sortEntries l).Pairwise entryLe := by
  induction l with
  | nil => simp [sortEntries]
  | cons e rest ih => exact insertEntry_sorted e (sortEntries rest) ih

theorem sortEntries_sorted_strict (l : List (String × Value))
    (hnd : (l.map Prod.fst).Nodup) : (sortEntries l).Pairwise entryLt := by
  have hperm : (sortEntries l).Perm l := sortEntries_perm l
  have hnd' : ((sortEntries l).map Prod.fst).Nodup :=
    (hperm.map Prod.fst).nodup_iff.mpr hnd
  have hkeys : (sortEntries l).Pairwise (fun a b => a.1 ≠ b.1) :=
    (List.pairwise_map).mp hnd'
  have hle := sortEntries_sorted l
  refine (hle.and hkeys).imp ?_
  rintro a b ⟨h1, h2⟩
  unfold entryLe at h1
  unfold entryLt
  by_cases h3 : strLt a.1 b.1 = true
  · exact h3
  · have h3' : strLt a.1 b.1 = false := by simpa using h3
    exact absurd (strLt_total h3' h1) h2

theorem sorted_strict_perm_eq : ∀ (xs ys : List (String × Value)),
    xs.Perm ys → xs.Pairwise entryLt → ys.Pairwise entryLt → xs = ys := by
  have : IsAntisymm (String × Value) entryLt := by
    constructor
    intro a b h1 h2
    unfold entryLt at h1 h2
    have := charListLt_asymm _ _ h1
    unfold strLt at h2 this
    rw [this] at h2
    cases h2
  intro xs ys hperm h1 h2
  exact List.eq_of_perm_of_sorted hperm h1 h2

theorem charLe_iff (a b : Char) : (a ≤ b) ↔ a.toNat ≤ b.toNat := Char.le_def

theorem charEq_iff (a b : Char) : (a = b) ↔ a.toNat = b.toNat :=
  ⟨fun h => by rw [h], char_eq_of_toNat_eq⟩

theorem goReplaceAll_single_not_mem (c : Char) (rep : List Char) :
    ∀ (s : List Char), c ∉ s → goReplaceAll s [c] rep = s
  | [], _ => by simp [goReplaceAll]
  | a :: rest, h => by
    have hca : ¬ c = a := fun hh => h (hh ▸ List.mem_cons_self a rest)
    have hrest : c ∉ rest := fun hh => h (List.mem_cons_of_mem a hh)
    rw [goReplaceAll]
    rw [dif_neg]
    · rw [goReplaceAll_single_not_mem c rep rest hrest]
    · intro hcond
      have h2 := hcond.2
      simp [List.isPrefixOf] at h2
      exact hca h2

theorem escapeXML_id_of_no_specials (s : String)
    (h1 : '&' ∉ s.data) (h2 : '"' ∉ s.data) (h3 : '\'' ∉ s.data)
    (h4 : '<' ∉ s.data) (h5 : '>' ∉ s.data) :
    EscapeXML s = s := by
  have e1 : goReplaceAllS s "&" "&amp;" = s := by
    show (⟨goReplaceAll s.data ['&'] "&amp;".data⟩ : String) = s
    rw [goReplaceAll_single_not_mem '&' _ s.data h1]
  have e2 : goReplaceAllS s "\"" "&quot;" = s := by
    show (⟨goReplaceAll s.data ['"'] "&quot;".data⟩ : String) = s
    rw [goReplaceAll_single_not_mem '"' _ s.data h2]
  have e3 : goReplaceAllS s "'" "&apos;" = s := by
    show (⟨goReplaceAll s.data ['\''] "&apos;".data⟩ : String) = s
    rw [goReplaceAll_single_not_mem '\'' _ s.data h3]
  have e4 : goReplaceAllS s "<" "&lt;" = s := by
    show (⟨goReplaceAll s.data ['<'] "&lt;".data⟩ : String) = s
    rw [goReplaceAll_single_not_mem '<' _ s.data h4]
  have e5 : goReplaceAllS s ">" "&gt;" = s := by
    show (⟨goReplaceAll s.data ['>'] "&gt;".data⟩ : String) = s
    rw [goReplaceAll_single_not_mem '>' _ s.data h5]
  simp only [EscapeXML]
  rw [e1, e2, e3, e4, e5]

theorem digit_not_special {c : Char} (h : '0' ≤ c ∧ c ≤ '9') :
    c ≠ '&' ∧ c ≠ '"' ∧ c ≠ '\'' ∧ c ≠ '<' ∧ c ≠ '>' := by
  have n1 : 48 ≤ c.toNat := Char.le_def.mp h.1
  have n2 : c.toNat ≤ 57 := Char.le_def.mp h.2
  refine ⟨?_, ?_, ?_, ?_, ?_⟩ <;>
    (intro he; rw [charEq_iff] at he
     have ea : ('&').toNat = 38 := rfl
     have eb : ('"').toNat = 34 := rfl
     have ec : ('\'').toNat = 39 := rfl
     have ed : ('<').toNat = 60 := rfl
     have ee : ('>').toNat = 62 := rfl
     omega)

theorem digit_isNameByte {c : Char} (h : '0' ≤ c ∧ c ≤ '9') : isNameByte c = true := by
  have d1 : decide ('0' ≤ c) = true := decide_eq_true h.1
  have d2 : decide (c ≤ '9') = true := decide_eq_true h.2
  simp [isNameByte, d1, d2]

theorem digit_not_nameStart {c : Char} (h : '0' ≤ c ∧ c ≤ '9') :
    isNameStartChar c = false := by
  have n1 : 48 ≤ c.toNat := Char.le_def.mp h.1
  have n2 : c.toNat ≤ 57 := Char.le_def.mp h.2
  have e1 : ('A').toNat = 65 := rfl
  have e2 : ('Z').toNat = 90 := rfl
  have e3 : ('a').toNat = 97 := rfl
  have e4 : ('z').toNat = 122 := rfl
  have e5 : ('_').toNat = 95 := rfl
  have e6 : (':').toNat = 58 := rfl
  simp only [isNameStartChar, Bool.or_eq_false_iff, Bool.and_eq_false_iff,
    decide_eq_false_iff_not, charLe_iff, charEq_iff, e1, e2, e3, e4, e5, e6]
  omega

theorem takeWhile_all {p : Char → Bool} :
    ∀ {l : List Char}, (∀ c ∈ l, p c = true) → l.takeWhile p = l ∧ l.dropWhile p = []
  | [], _ => by simp
  | a :: rest, h => by
    have ha := h a (List.mem_cons_self a rest)
    have ih := takeWhile_all (fun c hc => h c (List.mem_cons_of_mem a hc))
    simp [List.takeWhile_cons, List.dropWhile_cons, ha, ih.1, ih.2]

theorem keyIsValidXML_digits (s : String) (hne : s.data ≠ [])
    (h : ∀ c ∈ s.data, '0' ≤ c ∧ c ≤ '9') : KeyIsValidXML s = false := by
  have hall : ∀ c ∈ s.data, isNameByte c = true := fun c hc => digit_isNameByte (h c hc)
  have htw := takeWhile_all hall
  unfold KeyIsValidXML
  rw [htw.1, htw.2]
  cases hd : s.data with
  | nil => exact absurd hd hne
  | cons a l =>
    have ha : '0' ≤ a ∧ a ≤ '9' := h a (hd ▸ List.mem_cons_self a l)
    simp [digit_not_nameStart ha]

theorem isNumeric_of_digits (s : String) (hne : s.data ≠ [])
    (h : ∀ c ∈ s.data, '0' ≤ c ∧ c ≤ '9') : isNumeric s = true := by
  unfold isNumeric
  cases hd : s.data with
  | nil => exact absurd hd hne
  | cons a l =>
    simp only [List.all_eq_true]
    intro c hc
    have := h c (hd ▸ hc)
    simp [decide_eq_true this.1, decide_eq_true this.2]

/-! ## Claim theorems -/

/-- C1: for the input mapping `{"mock":"payload"}` converted in the
default dialect with root enabled, custom root name `root`, and
`attrType` disabled, `DictToXML` returns exactly
`<?xml version="1.0" encoding="UTF-8" ?><root><mock>payload</mock></root>`. -/
theorem dictToXML_mock_payload :
    DictToXML (vDict [("mock", vStr "payload")]) { DefaultOptions with attrType := false }
      = "<?xml version=\"1.0\" encoding=\"UTF-8\" ?><root><mock>payload</mock></root>" := by
  simp [DictToXML, DefaultOptions, DefaultItemFunc, buildNamespaceString, Convert, ConvertDict,
    convertDictEntries, convertDictEntry, sortEntries, insertEntry, ConvertKV, MakeValidXMLName,
    EscapeXML, goReplaceAllS, goReplaceAll, KeyIsValidXML, isNameByte, isNameStartChar,
    isNameRestChar, isXMLSpaceChar, isNumeric, MakeAttrString, goFormatV, setAttr, strLt,
    charListLt, GetXMLType, String.join]

/-- C2: the default-dialect transcoder `Convert` is a total function of
the JSON-like value domain: for every well-formed `Value` (null,
booleans, numbers, strings, timestamps, mappings, sequences, including
empty ones) and every option configuration it returns some string — the
mutual recursion below `Convert` terminates on all inputs, so no case is
undefined and nothing can panic. -/
theorem convert_total (obj : Value) (opts : Options) (parent : String) :
    ∃ s : String, Convert obj opts parent = s :=
  ⟨Convert obj opts parent, rfl⟩

/-- C4: converting `{"bike":["blue","green"]}` in the default dialect
with root off and `attrType` off yields
`<bike><item>blue</item><item>green</item></bike>` when `itemWrap` is
on, and `<bike>blue</bike><bike>green</bike>` when `itemWrap` is off. -/
theorem dictToXML_bike_itemWrap :
    DictToXML (vDict [("bike", vList [vStr "blue", vStr "green"])])
        { DefaultOptions with root := false, attrType := false }
      = "<bike><item>blue</item><item>green</item></bike>"
    ∧ DictToXML (vDict [("bike", vList [vStr "blue", vStr "green"])])
        { DefaultOptions with root := false, attrType := false, itemWrap := false }
      = "<bike>blue</bike><bike>green</bike>" := by
  constructor <;>
    simp +decide [DictToXML, DefaultOptions, DefaultItemFunc, buildNamespaceString, Convert, ConvertDict,
      convertDictEntries, convertDictEntry, sortEntries, insertEntry, ConvertKV, List2XMLStr,
      ConvertList, convertListItems, convertListItem, trimFlatSuffix, goHasSuffix,
      MakeValidXMLName, EscapeXML, goReplaceAllS, goReplaceAll, KeyIsValidXML, isNameByte,
      isNameStartChar, isNameRestChar, isXMLSpaceChar, isNumeric, MakeAttrString, goFormatV,
      setAttr, strLt, charListLt, GetXMLType, IsPrimitiveType, String.join]

/-- C6: `EscapeXML` maps each of the five special characters to its
entity form, and escaping is a single literal pass: `EscapeXML "&"` is
`"&amp;"` and `EscapeXML "&amp;"` is `"&amp;amp;"` — the ampersand of an
already-escaped sequence is escaped again literally, never collapsed. -/
theorem escapeXML_entities :
    EscapeXML "&" = "&amp;"
    ∧ EscapeXML "\"" = "&quot;"
    ∧ EscapeXML "'" = "&apos;"
    ∧ EscapeXML "<" = "&lt;"
    ∧ EscapeXML ">" = "&gt;"
    ∧ EscapeXML "&amp;" = "&amp;amp;" := by
  refine ⟨?_, ?_, ?_, ?_, ?_, ?_⟩ <;>
    simp [EscapeXML, goReplaceAllS, goReplaceAll]

/-- C8: in the XPath 3.1 dialect the output of `DictToXML` is identical
for any two option configurations with `xpathFormat` enabled (it
consults none of the other options), and a mapping containing the keys
`@attrs`, `@val` or `@flat` has them encoded literally as ordinary map
entries rather than interpreted as meta-keys. -/
theorem xpath_ignores_options :
    (∀ (obj : Value) (o1 o2 : Options), o1.xpathFormat = true → o2.xpathFormat = true →
      DictToXML obj o1 = DictToXML obj o2)
    ∧ ConvertToXPath31
        (vDict [("@attrs", vDict [("a", vStr "b")]), ("@flat", vBool true),
                ("@val", vInt 5), ("x", vStr "y")]) ""
      = "<map><map key=\"@attrs\"><string key=\"a\">b</string></map><boolean key=\"@flat\">true</boolean><number key=\"@val\">5</number><string key=\"x\">y</string></map>" := by
  constructor
  · intro obj o1 o2 h1 h2
    simp [DictToXML, h1, h2]
  · simp [ConvertToXPath31, xpathChildren, sortEntries, insertEntry, strLt, charListLt,
      EscapeXML, goReplaceAllS, goReplaceAll, goFormatV, String.join]
    decide

/-- C3: `ConvertDict` emits the child elements of a mapping in strictly
sorted lexicographic (byte/codepoint) key order, independent of the
order in which the keys were inserted: permuting the entries of a
mapping with distinct keys leaves the output unchanged, and the entry
sequence that `ConvertDict` iterates (`sortEntries`) is strictly
increasing in the key order and contains exactly the mapping's
entries. -/
theorem convertDict_sorted_keys (l l' : List (String × Value)) (opts : Options)
    (parent : String) (hnd : (l.map Prod.fst).Nodup) (hperm : l.Perm l') :
    ConvertDict l opts parent = ConvertDict l' opts parent
    ∧ (sortEntries l).Pairwise entryLt
    ∧ (sortEntries l).Perm l := by
  have hnd' : (l'.map Prod.fst).Nodup := ((hperm.map Prod.fst).nodup_iff).mp hnd
  have hsorted := sortEntries_sorted_strict l hnd
  have hsorted' := sortEntries_sorted_strict l' hnd'
  have hpp : (sortEntries l).Perm (sortEntries l') :=
    (sortEntries_perm l).trans (hperm.trans (sortEntries_perm l').symm)
  have heq : sortEntries l = sortEntries l' :=
    sorted_strict_perm_eq _ _ hpp hsorted hsorted'
  exact ⟨by rw [ConvertDict, ConvertDict, heq], hsorted, sortEntries_perm l⟩

/-- Witness for C3 at a concrete two-entry mapping and its swapped
insertion order. -/
theorem convertDict_sorted_keys_witness :
    ConvertDict [("b", vStr "1"), ("a", vStr "2")] DefaultOptions "root"
      = ConvertDict [("a", vStr "2"), ("b", vStr "1")] DefaultOptions "root"
    ∧ (sortEntries [("b", vStr "1"), ("a", vStr "2")]).Pairwise entryLt
    ∧ (sortEntries [("b", vStr "1"), ("a", vStr "2")]).Perm
        [("b", vStr "1"), ("a", vStr "2")] :=
  convertDict_sorted_keys [("b", vStr "1"), ("a", vStr "2")]
    [("a", vStr "2"), ("b", vStr "1")] DefaultOptions "root" (by decide)
    (List.Perm.swap ("a", vStr "2") ("b", vStr "1") [])

/-- C5: `MakeValidXMLName` maps a non-empty all-digit key to the same
key prefixed with `n`, attributes unchanged; and maps a key no
sanitization rule can fix — such as `/invalid/path` or the empty
string — to the literal element name `key` with the original escaped
key stored under `name` in the returned attribute set. -/
theorem makeValidXMLName_numeric_and_invalid :
    (∀ (key : String) (attrs : Attrs), key ≠ "" →
        (∀ c ∈ key.data, '0' ≤ c ∧ c ≤ '9') →
        MakeValidXMLName key attrs = ("n" ++ key, attrs))
    ∧ MakeValidXMLName "/invalid/path" [] = ("key", [("name", vStr "/invalid/path")])
    ∧ MakeValidXMLName "" [] = ("key", [("name", vStr "")]) := by
  refine ⟨?_, ?_, ?_⟩
  · intro key attrs hne h
    have hne' : key.data ≠ [] := by
      intro hd
      apply hne
      cases key with
      | mk d => simp only at hd; rw [hd]
    have h1 : '&' ∉ key.data := fun hm => (digit_not_special (h _ hm)).1 rfl
    have h2 : '"' ∉ key.data := fun hm => (digit_not_special (h _ hm)).2.1 rfl
    have h3 : '\'' ∉ key.data := fun hm => (digit_not_special (h _ hm)).2.2.1 rfl
    have h4 : '<' ∉ key.data := fun hm => (digit_not_special (h _ hm)).2.2.2.1 rfl
    have h5 : '>' ∉ key.data := fun hm => (digit_not_special (h _ hm)).2.2.2.2 rfl
    have hesc : EscapeXML key = key := escapeXML_id_of_no_specials key h1 h2 h3 h4 h5
    simp [MakeValidXMLName, hesc, keyIsValidXML_digits key hne' h,
      isNumeric_of_digits key hne' h]
  · simp +decide [MakeValidXMLName, EscapeXML, goReplaceAllS, goReplaceAll, KeyIsValidXML,
      isNameByte, isNameStartChar, isNameRestChar, isXMLSpaceChar, isNumeric, setAttr]
  · simp +decide [MakeValidXMLName, EscapeXML, goReplaceAllS, goReplaceAll, KeyIsValidXML,
      isNameByte, isNameStartChar, isNameRestChar, isXMLSpaceChar, isNumeric, setAttr]

/-- Witness for C5's universal part at the concrete key `123`. -/
theorem makeValidXMLName_numeric_witness :
    MakeValidXMLName "123" [] = ("n123", []) :=
  makeValidXMLName_numeric_and_invalid.1 "123" [] (by decide) (by decide)

/-- Witness for C8 at a concrete value and two concrete option
configurations differing in every non-dialect option. -/
theorem xpath_ignores_options_witness :
    DictToXML (vDict [("k", vStr "v")]) { DefaultOptions with xpathFormat := true }
      = DictToXML (vDict [("k", vStr "v")])
          { root := false
            customRoot := "other"
            ids := true
            attrType := false
            itemWrap := false
            itemFunc := fun p => p ++ "x"
            cdata := true
            xmlNamespaces := [("xmlns", vStr "urn:n")]
            listHeaders := true
            xpathFormat := true
            rnd := fun n => n / 2 } :=
  xpath_ignores_options.1 (vDict [("k", vStr "v")]) _ _ rfl rfl

/-- C9 counterexample: `ConvertToXML` does not treat an empty top-level
mapping as a "no document" case — it emits a full XML document
`<?xml ... ?><root></root>`, exactly what the claim says must not
happen. -/
theorem convertToXML_empty_dict_emits_document :
    ConvertToXML (vDict []) none
      = some "<?xml version=\"1.0\" encoding=\"UTF-8\" ?><root></root>" := by
  simp [ConvertToXML, DictToXML, DefaultOptions, DefaultItemFunc, buildNamespaceString,
    Convert, ConvertDict, convertDictEntries, sortEntries, String.join]

/-- C9 (amended): through `Json2xml.ToXML`, nil data, an empty top-level
mapping and an empty top-level sequence all produce a nil result and a
nil error (no document, no failure), for every pretty-printer; the
convenience function `ConvertToXML` returns no document only for nil
data. -/
theorem toXML_empty_is_no_document :
    (∀ (pp : String → Except Unit String) (j : Json2xml),
        j.data = vNull ∨ j.data = vDict [] ∨ j.data = vList [] →
        j.toXML pp = .ok .nilResult)
    ∧ (∀ opts : Option Options, ConvertToXML vNull opts = none) := by
  constructor
  · intro pp j h
    rcases h with h | h | h <;> simp [Json2xml.toXML, h]
  · intro opts
    rfl

/-- Witness for C9's amended statement at a concrete converter built on
an empty mapping. -/
theorem toXML_empty_is_no_document_witness :
    Json2xml.toXML (fun s => .ok s) (New (vDict [])) = .ok .nilResult :=
  toXML_empty_is_no_document.1 (fun s => .ok s) (New (vDict [])) (Or.inr (Or.inl rfl))

theorem lookupVal_deleteKey_self (l : List (String × Value)) (k : String) :
    lookupVal (deleteKey l k) k = none := by
  induction l with
  | nil => rfl
  | cons e rest ih =>
    obtain ⟨k', v⟩ := e
    by_cases hk : k' = k
    · simpa [deleteKey, List.filter_cons, hk] using ih
    · simpa [deleteKey, List.filter_cons, hk, lookupVal] using ih

theorem lookupVal_deleteKey_ne (l : List (String × Value)) (k k' : String)
    (h : k' ≠ k) : lookupVal (deleteKey l k) k' = lookupVal l k' := by
  induction l with
  | nil => rfl
  | cons e rest ih =>
    obtain ⟨ke, v⟩ := e
    by_cases hk : ke = k
    · subst hk
      simpa [deleteKey, List.filter_cons, lookupVal, Ne.symm h] using ih
    · by_cases hk' : ke = k'
      · subst hk'
        simp [deleteKey, List.filter_cons, hk, lookupVal]
      · simpa [deleteKey, List.filter_cons, hk, lookupVal, hk'] using ih

theorem mem_deleteKey_iff (l : List (String × Value)) (k k' : String) (v : Value)
    (h : k' ≠ k) : (k', v) ∈ deleteKey l k ↔ (k', v) ∈ l := by
  unfold deleteKey
  simp [List.mem_filter, h]

theorem extractAttrsStep_snd_eq (l : List (String × Value)) (d : Attrs) :
    (extractAttrsStep l d).2 = deleteKey l "@attrs" ∨ (extractAttrsStep l d).2 = l := by
  unfold extractAttrsStep
  cases hl : lookupVal l "@attrs" with
  | none => right; rfl
  | some v => cases v <;> simp

theorem extractAttrsStep_snd_of_dict (l : List (String × Value)) (d : Attrs)
    (ca : List (String × Value)) (h : lookupVal l "@attrs" = some (vDict ca)) :
    (extractAttrsStep l d).2 = deleteKey l "@attrs" := by
  unfold extractAttrsStep
  rw [h]

theorem extractValStep_snd_eq (l : List (String × Value)) :
    (extractValStep l).2 = deleteKey l "@val" ∨ (extractValStep l).2 = l := by
  unfold extractValStep
  cases hl : lookupVal l "@val" with
  | none => right; rfl
  | some v => left; rfl

theorem extractValStep_lookup (l : List (String × Value)) :
    lookupVal (extractValStep l).2 "@val" = none := by
  unfold extractValStep
  cases hl : lookupVal l "@val" with
  | none => simpa using hl
  | some v => simp [lookupVal_deleteKey_self]

theorem extractFlatStep_snd_eq (l : List (String × Value)) :
    (extractFlatStep l).2 = deleteKey l "@flat" ∨ (extractFlatStep l).2 = l := by
  unfold extractFlatStep
  cases hl : lookupVal l "@flat" with
  | none => right; rfl
  | some v =>
    left
    cases v
    case vBool b => cases b <;> rfl
    all_goals rfl

theorem extractFlatStep_lookup (l : List (String × Value)) :
    lookupVal (extractFlatStep l).2 "@flat" = none := by
  unfold extractFlatStep
  cases hl : lookupVal l "@flat" with
  | none => simpa using hl
  | some v =>
    cases v
    case vBool b => cases b <;> simp [lookupVal_deleteKey_self]
    all_goals simp [lookupVal_deleteKey_self]

theorem lookup_of_step {l l' : List (String × Value)} {K k : String}
    (hstep : l' = deleteKey l K ∨ l' = l) (h : k ≠ K) :
    lookupVal l' k = lookupVal l k := by
  rcases hstep with h' | h' <;> subst h'
  · exact lookupVal_deleteKey_ne l K k h
  · rfl

theorem mem_of_step {l l' : List (String × Value)} {K k : String} {v : Value}
    (hstep : l' = deleteKey l K ∨ l' = l) (h : k ≠ K) :
    ((k, v) ∈ l' ↔ (k, v) ∈ l) := by
  rcases hstep with h' | h' <;> subst h'
  · exact mem_deleteKey_iff l K k v h
  · exact Iff.rfl

/-- C10: `Dict2XMLStr` mutates the caller's mapping in place — modelled
by its second result component, the post-call state of the `item` map:
a map-valued `@attrs` key, a `@val` key and a `@flat` key are deleted
from the map during the call and not restored, while every binding with
any other key is left in place. -/
theorem dict2XMLStr_strips_meta (opts : Options) (attrs : Attrs)
    (item : List (String × Value)) (itemName : String) (pil : Bool) (parent : String) :
    lookupVal (Dict2XMLStr opts attrs item itemName pil parent).2 "@val" = none
    ∧ lookupVal (Dict2XMLStr opts attrs item itemName pil parent).2 "@flat" = none
    ∧ (∀ ca, lookupVal item "@attrs" = some (vDict ca) →
        lookupVal (Dict2XMLStr opts attrs item itemName pil parent).2 "@attrs" = none)
    ∧ ∀ (k : String) (v : Value), k ≠ "@attrs" → k ≠ "@val" → k ≠ "@flat" →
        ((k, v) ∈ item ↔ (k, v) ∈ (Dict2XMLStr opts attrs item itemName pil parent).2) := by
  have hsnd : (Dict2XMLStr opts attrs item itemName pil parent).2
      = (extractFlatStep (extractValStep (extractAttrsStep item
          (if opts.attrType then setAttr attrs "type" (vStr (GetXMLType (vDict item)))
           else attrs)).2).2).2 := by
    simp [Dict2XMLStr, extractSpecialAttrs]
  rw [hsnd]
  set d := if opts.attrType then setAttr attrs "type" (vStr (GetXMLType (vDict item)))
    else attrs with hd
  set i1 := (extractAttrsStep item d).2 with hi1
  set i2 := (extractValStep i1).2 with hi2
  refine ⟨?_, ?_, ?_, ?_⟩
  · rw [lookup_of_step (extractFlatStep_snd_eq i2) (by decide)]
    exact extractValStep_lookup i1
  · exact extractFlatStep_lookup i2
  · intro ca hca
    rw [lookup_of_step (extractFlatStep_snd_eq i2) (by decide),
      lookup_of_step (extractValStep_snd_eq i1) (by decide), hi1,
      extractAttrsStep_snd_of_dict item d ca hca]
    exact lookupVal_deleteKey_self item "@attrs"
  · intro k v hk1 hk2 hk3
    rw [mem_of_step (extractFlatStep_snd_eq i2) hk3,
      mem_of_step (extractValStep_snd_eq i1) hk2, hi1]
    exact (mem_of_step (extractAttrsStep_snd_eq item d) hk1).symm

/-- Witness for C10 at a concrete mapping carrying all three meta keys
and one ordinary key. -/
theorem dict2XMLStr_strips_meta_witness :
    lookupVal (Dict2XMLStr DefaultOptions []
        [("@attrs", vDict [("x", vStr "1")]), ("@val", vInt 3),
         ("@flat", vBool true), ("keep", vStr "v")] "n" false "p").2 "@val" = none
    ∧ (("keep", vStr "v") ∈
          ([("@attrs", vDict [("x", vStr "1")]), ("@val", vInt 3),
            ("@flat", vBool true), ("keep", vStr "v")] : List (String × Value)) ↔
        ("keep", vStr "v") ∈ (Dict2XMLStr DefaultOptions []
          [("@attrs", vDict [("x", vStr "1")]), ("@val", vInt 3),
           ("@flat", vBool true), ("keep", vStr "v")] "n" false "p").2) :=
  ⟨(dict2XMLStr_strips_meta DefaultOptions [] _ "n" false "p").1,
    (dict2XMLStr_strips_meta DefaultOptions [] _ "n" false "p").2.2.2 "keep" (vStr "v")
      (by decide) (by decide) (by decide)⟩

/-! ## CDATA splitting: the replaced text never leaves a `]]>` unsplit -/

theorem goReplaceAll_head_gt : ∀ (t : List Char),
    ['>'].isPrefixOf (goReplaceAll t "]]>".data "]]]]><![CDATA[>".data) = true →
    ['>'].isPrefixOf t = true
  | [] => by simp [goReplaceAll, List.isPrefixOf]
  | c :: t' => by
    rw [goReplaceAll]
    by_cases h : ("]]>".data ≠ [] ∧ "]]>".data.isPrefixOf (c :: t'))
    · rw [dif_pos h]
      intro hyp
      simp [List.isPrefixOf] at hyp
    · rw [dif_neg h]
      intro hyp
      simp [List.isPrefixOf] at hyp ⊢
      exact hyp

theorem goReplaceAll_head_brkgt : ∀ (t : List Char),
    [']', '>'].isPrefixOf (goReplaceAll t "]]>".data "]]]]><![CDATA[>".data) = true →
    [']', '>'].isPrefixOf t = true
  | [] => by simp [goReplaceAll, List.isPrefixOf]
  | c :: t' => by
    rw [goReplaceAll]
    by_cases h : ("]]>".data ≠ [] ∧ "]]>".data.isPrefixOf (c :: t'))
    · rw [dif_pos h]
      intro hyp
      simp [List.isPrefixOf] at hyp
    · rw [dif_neg h]
      intro hyp
      simp [List.isPrefixOf] at hyp ⊢
      refine ⟨hyp.1, ?_⟩
      have := goReplaceAll_head_gt t' (by simp [List.isPrefixOf, hyp.2])
      simpa [List.isPrefixOf] using this

theorem cdata_no_unsplit : ∀ (n : Nat) (s : List Char), s.length ≤ n → ∀ (i : Nat),
    "]]>".data.isPrefixOf ((goReplaceAll s "]]>".data "]]]]><![CDATA[>".data).drop i) = true →
    "]]><![CDATA[".data.isPrefixOf
      ((goReplaceAll s "]]>".data "]]]]><![CDATA[>".data).drop i) = true := by
  intro n
  induction n with
  | zero =>
    intro s hs i hyp
    have hnil : s = [] := List.eq_nil_of_length_eq_zero (Nat.le_zero.mp hs)
    subst hnil
    simp [goReplaceAll, List.isPrefixOf] at hyp
  | succ n ih =>
    intro s hs i hyp
    cases s with
    | nil => simp [goReplaceAll, List.isPrefixOf] at hyp
    | cons c rest =>
      rw [goReplaceAll] at hyp ⊢
      by_cases h : ("]]>".data ≠ [] ∧ "]]>".data.isPrefixOf (c :: rest))
      · rw [dif_pos h] at hyp ⊢
        rcases Nat.lt_or_ge i 15 with hi | hi
        · interval_cases i <;> simp [List.isPrefixOf] at hyp ⊢
        · have hdrop : ∀ (X : List Char),
              (("]]]]><![CDATA[>".data ++ X).drop i) = X.drop (i - 15) := by
            intro X
            rw [List.drop_append_eq_append_drop]
            rw [List.drop_eq_nil_of_le (by simp; omega)]
            simp
          rw [hdrop] at hyp ⊢
          have hlen : ((c :: rest).drop ("]]>".data.length)).length ≤ n := by
            simp only [List.length_drop, List.length_cons] at *
            omega
          exact ih _ hlen (i - 15) hyp
      · rw [dif_neg h] at hyp ⊢
        cases i with
        | succ j =>
          rw [List.drop_succ_cons] at hyp ⊢
          have hlen : rest.length ≤ n := by
            simp only [List.length_cons] at hs
            omega
          exact ih rest hlen j hyp
        | zero =>
          rw [List.drop_zero] at hyp ⊢
          exfalso
          apply h
          refine ⟨by simp, ?_⟩
          simp only [List.isPrefixOf, Bool.and_eq_true, beq_iff_eq] at hyp
          have h3 := goReplaceAll_head_brkgt rest hyp.2
          simp only [List.isPrefixOf, Bool.and_eq_true, beq_iff_eq]
          exact ⟨hyp.1, h3⟩

/-- C7: for every input, `WrapCDATA s` starts with `<![CDATA[` and ends
with `]]>`, and in the text strictly between that opening marker and
that final closing marker every occurrence of the terminator `]]>` is
split — it is immediately continued by `<![CDATA[`, reopening a CDATA
section — so the result is a syntactically valid (chain of) CDATA
section(s) regardless of the content of `s`. -/
theorem wrapCDATA_always_valid (s : String) :
    goHasPrefix (WrapCDATA s) "<![CDATA[" = true
    ∧ goHasSuffix (WrapCDATA s) "]]>" = true
    ∧ ∀ i : Nat,
        "]]>".data.isPrefixOf
          ((((WrapCDATA s).data.drop 9).take
            (((WrapCDATA s).data.drop 9).length - 3)).drop i) = true →
        "]]><![CDATA[".data.isPrefixOf
          ((((WrapCDATA s).data.drop 9).take
            (((WrapCDATA s).data.drop 9).length - 3)).drop i) = true := by
  have hdata : (WrapCDATA s).data
      = "<![CDATA[".data ++
        (goReplaceAll s.data "]]>".data "]]]]><![CDATA[>".data ++ "]]>".data) := by
    simp [WrapCDATA, goReplaceAllS, String.data_append, List.append_assoc]
  have hmid : ((WrapCDATA s).data.drop 9).take (((WrapCDATA s).data.drop 9).length - 3)
      = goReplaceAll s.data "]]>".data "]]]]><![CDATA[>".data := by
    rw [hdata]
    rw [show (9 : Nat) = "<![CDATA[".data.length from rfl, List.drop_left]
    rw [List.length_append]
    rw [show ("]]>".data.length : Nat) = 3 from rfl, Nat.add_sub_cancel]
    exact List.take_left _ _
  refine ⟨?_, ?_, ?_⟩
  · rw [goHasPrefix, hdata]
    rw [List.isPrefixOf_iff_prefix]
    exact List.prefix_append _ _
  · rw [goHasSuffix, hdata]
    rw [List.isSuffixOf_iff_suffix]
    rw [← List.append_assoc]
    exact List.suffix_append _ _
  · rw [hmid]
    exact cdata_no_unsplit s.data.length s.data (Nat.le_refl _)

/-- Witness for C7 at the concrete input `a]]>b`, whose middle text
contains a (split) occurrence of the terminator at offset 3. -/
theorem wrapCDATA_always_valid_witness :
    "]]><![CDATA[".data.isPrefixOf
      ((((WrapCDATA "a]]>b").data.drop 9).take
        (((WrapCDATA "a]]>b").data.drop 9).length - 3)).drop 3) = true :=
  (wrapCDATA_always_valid "a]]>b").2.2 3
    (by simp [WrapCDATA, goReplaceAllS, goReplaceAll, List.isPrefixOf, String.data_append])

end Json2XML
